import Mathlib

/-!
Verification of the two developer-workflow scripts of this repository:
`support/post-reviews.py` (the chained review submitter) and
`support/mesos-style.py` (the style checker).  Strings are modelled as
`List Char`; every Python string primitive the scripts use (`strip`,
`rstrip`, `split`, `find`, `replace`, `in`, `os.path.basename`) has an
explicit executable counterpart below, and the one regular expression of
each script is modelled at the character level (`.` in a pattern matches
any character other than a newline, `[...]` is a character class).
-/

namespace MesosSupport

/-- Python `str` whitespace (ASCII), the class used by `str.strip()`,
`str.rstrip()` and `str.split()` with no arguments. -/
def isPySpace (c : Char) : Bool :=
  c == ' ' || c == '\t' || c == '\n' || c == '\r' || c == '\x0b' || c == '\x0c'

/-- `c == '/'`, the class used by `str.strip('/')`. -/
def isSlashC (c : Char) : Bool := c == '/'

/-- Removal of trailing characters satisfying `p` (Python `str.rstrip`). -/
def trimRightBy (p : Char → Bool) : List Char → List Char
  | [] => []
  | c :: rest =>
    match trimRightBy p rest with
    | [] => if p c then [] else [c]
    | r => c :: r

/-- Python `s.strip(...)`: remove leading and trailing characters
satisfying `p`. -/
def stripBy (p : Char → Bool) (s : List Char) : List Char :=
  trimRightBy p (s.dropWhile p)

/-- Python `s.strip()`. -/
def pyStrip (s : List Char) : List Char := stripBy isPySpace s

/-- Python `s.strip('/')`. -/
def stripSlashes (s : List Char) : List Char := stripBy isSlashC s

/-- Does `s` begin with `pat`, character for character? -/
def startsWithL : List Char → List Char → Bool
  | [], _ => true
  | _ :: _, [] => false
  | a :: as, b :: bs => a == b && startsWithL as bs

/-- Python `pat in s` (equivalently `s.find(pat) != -1`): does `pat` occur
as a contiguous substring of `s`? -/
def containsSub (pat : List Char) : List Char → Bool
  | [] => pat.isEmpty
  | c :: rest => startsWithL pat (c :: rest) || containsSub pat rest

/-- Python `s[s.find(pat):]`: the suffix of `s` starting at the first
occurrence of `pat` (`[]` when there is none; only used when `pat in s`). -/
def dropToSub (pat : List Char) : List Char → List Char
  | [] => []
  | c :: rest => if startsWithL pat (c :: rest) then c :: rest else dropToSub pat rest

/-- `os.path.basename` on a POSIX path or URL: everything after the last
`/` (the whole string when there is no `/`). -/
def basenameL (s : List Char) : List Char :=
  (s.reverse.takeWhile (fun c => c != '/')).reverse

/-- Python `s.split('\n')`. -/
def splitOnNl : List Char → List (List Char)
  | [] => [[]]
  | c :: rest =>
    if c == '\n' then [] :: splitOnNl rest
    else
      match splitOnNl rest with
      | [] => [[c]]
      | l :: ls => (c :: l) :: ls

/-- Join lines with `'\n'` separators (the inverse of `splitOnNl` on
newline-free lines). -/
def joinNl : List (List Char) → List Char
  | [] => []
  | [l] => l
  | l :: ls => l ++ '\n' :: joinNl ls

/-! ### post-reviews.py: review trailer detection (lines 279-294) -/

/-- One regex character: in the pattern compiled at line 286 every character
of the configured server URL is taken literally except `.`, which in a regex
matches any character other than a newline. -/
def dotMatches (p c : Char) : Bool :=
  if p == '.' then c != '\n' else p == c

/-- Does the regex-literal `pat` (with `.` as a wildcard) match the first
`pat.length` characters of `s`? -/
def matchesAt (pat s : List Char) : Bool :=
  decide (pat.length ≤ s.length) && (pat.zip s).all (fun pc => dotMatches pc.1 pc.2)

/-- Anchored match of `s` against the pattern
`Review: (<base>/r/[0-9]+)$` built at lines 285-286 of post-reviews.py
(`base` is `reviewboard_url.strip('/')`).  The match starts at the beginning
of `s` and, because of the `$` anchor and the trailing `[0-9]+`, spans all of
`s`; on success the result is group 1 — everything after `"Review: "`. -/
def matchTrailerHere (base s : List Char) : Option (List Char) :=
  if matchesAt (("Review: ").data) s
      && matchesAt base (s.drop 8)
      && matchesAt (("/r/").data) (s.drop (8 + base.length))
      && !(s.drop (8 + base.length + 3)).isEmpty
      && (s.drop (8 + base.length + 3)).all Char.isDigit
  then some (s.drop 8) else none

/-- `pattern.search(...)` at line 287: try every start position from the
left and return group 1 of the leftmost match. -/
def searchTrailer (base : List Char) : List Char → Option (List Char)
  | [] => matchTrailerHere base []
  | c :: rest =>
    match matchTrailerHere base (c :: rest) with
    | some url => some url
    | none => searchTrailer base rest

/-- Lines 279-294 of post-reviews.py: detection and validation of an
existing review trailer in a commit message.  `.error d` models the
`sys.exit(1)` at line 291 after printing `Invalid ReviewBoard URL: '<d>'`
with `d = message[pos:]`; `.ok none` means the message has no `Review:`
substring; `.ok (some id)` is the extracted review request id
(`os.path.basename` of the matched URL, line 294). -/
def findReviewRequestId (reviewboard_url message : List Char) :
    Except (List Char) (Option (List Char)) :=
  if containsSub (("Review:").data) message then
    match searchTrailer (stripSlashes reviewboard_url) (stripSlashes (pyStrip message)) with
    | none => .error (dropToSub (("Review:").data) message)
    | some url => .ok (some (basenameL url))
  else .ok none

/-- The default server URL (lines 208-211). -/
def apacheBase : List Char := ("https://reviews.apache.org").data

/-- A well-formed trailer line for request id 123 on the default server. -/
def trailer123 : List Char := ("Review: https://reviews.apache.org/r/123").data

/-- The review URL for request id 123 on the default server. -/
def url123 : List Char := ("https://reviews.apache.org/r/123").data

/-- The URL derived from the configured server URL and a request id, in the
`"/".join([reviewboard_url.strip('/'), 'r', id])` shape of line 285 (the
same shape `'Review: ' + url` re-embeds at line 388). -/
def urlOfId (reviewboard_url id : List Char) : List Char :=
  stripSlashes reviewboard_url ++ ("/r/").data ++ id

/-! ### post-reviews.py: LooseVersion (distutils), lines 32, 170-172, 346-349 -/

/-- One component of a `distutils` `LooseVersion`: an integer or a string. -/
inductive VComp where
  | num (n : Nat)
  | str (s : List Char)
deriving DecidableEq

/-- A lowercase ASCII letter (the `[a-z]+` alternative of the
`LooseVersion` component regex). -/
def isLowerC (c : Char) : Bool := decide ('a' ≤ c) && decide (c ≤ 'z')

/-- A character matched by no alternative of the component regex; maximal
runs of such characters survive as string components. -/
def isOtherC (c : Char) : Bool := !(c.isDigit || isLowerC c || c == '.')

/-- Numeric value of a digit run (`int(...)` conversion). -/
def natOfDigits (ds : List Char) : Nat :=
  ds.foldl (fun a c => a * 10 + (c.toNat - 48)) 0

/-- Worker for `tokenizeVer`, structurally recursive on a fuel counter.
Every step consumes at least one character, so fuel equal to the input
length always suffices. -/
def tokenizeVerGo : Nat → List Char → List VComp
  | 0, _ => []
  | _, [] => []
  | fuel + 1, c :: rest =>
    if c.isDigit then
      VComp.num (natOfDigits (c :: rest.takeWhile Char.isDigit)) ::
        tokenizeVerGo fuel (rest.dropWhile Char.isDigit)
    else if isLowerC c then
      VComp.str (c :: rest.takeWhile isLowerC) ::
        tokenizeVerGo fuel (rest.dropWhile isLowerC)
    else if c == '.' then tokenizeVerGo fuel rest
    else
      VComp.str (c :: rest.takeWhile isOtherC) ::
        tokenizeVerGo fuel (rest.dropWhile isOtherC)

/-- `LooseVersion.parse`: split the version string on the component regex
`(\d+ | [a-z]+ | \.)`, drop the `.` separators, convert digit runs to
integers and keep every other maximal run (including unmatched text such as
`RBT` or a space) as a string component. -/
def tokenizeVer (s : List Char) : List VComp := tokenizeVerGo s.length s

/-- Lexicographic comparison of strings (Python 2 `str` comparison). -/
def cmpChars : List Char → List Char → Ordering
  | [], [] => .eq
  | [], _ :: _ => .lt
  | _ :: _, [] => .gt
  | a :: as, b :: bs =>
    if a < b then .lt else if b < a then .gt else cmpChars as bs

/-- Python 2 comparison of `LooseVersion` components: numbers compare below
strings (in CPython 2 any number is smaller than any string). -/
def cmpVComp : VComp → VComp → Ordering
  | .num a, .num b => compare a b
  | .num _, .str _ => .lt
  | .str _, .num _ => .gt
  | .str a, .str b => cmpChars a b

/-- Python 2 list comparison (lexicographic, shorter prefix first), as used
by `LooseVersion.__cmp__` on the component lists. -/
def cmpVList : List VComp → List VComp → Ordering
  | [], [] => .eq
  | [], _ :: _ => .lt
  | _ :: _, [] => .gt
  | a :: as, b :: bs =>
    match cmpVComp a b with
    | .eq => cmpVList as bs
    | o => o

/-- Python `a >= b` on parsed `LooseVersion`s. -/
def looseGe (a b : List VComp) : Bool := cmpVList a b != Ordering.lt

/-- `LooseVersion('RBTools 0.6')` (line 346). -/
def rbtools06 : List VComp := tokenizeVer (("RBTools 0.6").data)

/-- `LooseVersion('RBTools 0.6.1')` (line 349). -/
def rbtools061 : List VComp := tokenizeVer (("RBTools 0.6.1").data)

/-! ### post-reviews.py: client selection and command construction -/

/-- The review client selected at lines 168-178: `rbt` (with the parsed
`LooseVersion` of its `--version` output, line 172) or `post-review`. -/
inductive ReviewClient where
  | rbt (rbt_version : List VComp)
  | postReview
deriving DecidableEq

/-- The configuration the main loop of post-reviews.py runs under. -/
structure Config where
  /-- the review server URL (lines 208-211) -/
  reviewboard_url : List Char
  /-- the tracking branch (lines 213-216) -/
  tracking_branch : List Char
  /-- whether `--tracking-branch` was passed on the command line
  (line 339 tests `args.tracking_branch is None`) -/
  tracking_branch_arg : Bool
  /-- which review client was found -/
  client : ReviewClient
  /-- `'rbt'` on Unix, `'rbt.cmd'` on Windows (lines 141-145) -/
  rbt_executable : List Char
  /-- `sys.argv[1:]`, forwarded verbatim (lines 353 and 359) -/
  argv_tail : List (List Char)
deriving DecidableEq

/-- `post_review` as set at lines 169-175: `[rbt_executable, 'post']` when
`rbt` is available, `['post-review']` otherwise. -/
def post_review (cfg : Config) : List (List Char) :=
  match cfg.client with
  | .rbt _ => [cfg.rbt_executable, ("post").data]
  | .postReview => [("post-review").data]

/-- `rbt_version >= LooseVersion(thr)`.  When `post-review` was selected,
`rbt_version` is Python `None`, and in Python 2 `None` compares below every
other object, so the comparison is `False`. -/
def rbt_version_ge (cfg : Config) (thr : List VComp) : Bool :=
  match cfg.client with
  | .rbt v => looseGe v thr
  | .postReview => false

/-- The branch condition of line 346:
`rbt_executable in post_review and rbt_version >= LooseVersion('RBTools 0.6')`. -/
def usesRevisionPair (cfg : Config) : Bool :=
  (post_review cfg).contains cfg.rbt_executable && rbt_version_ge cfg rbtools06

/-- Python truthiness of an optional string (`None` and `''` are falsy). -/
def pyTruthy : Option (List Char) → Bool
  | none => false
  | some s => !s.isEmpty

/-- Lines 337-343: the part of the review-client command shared by both
revision-range forms (`post_review`, the optional `--tracking-branch`, the
optional `--review-request-id`). -/
def commandCommon (cfg : Config) (review_request_id : Option (List Char)) :
    List (List Char) :=
  let c := post_review cfg
  let c := if cfg.tracking_branch_arg then c
           else c ++ [("--tracking-branch=").data ++ cfg.tracking_branch]
  if pyTruthy review_request_id then
    c ++ [("--review-request-id=").data ++ review_request_id.getD []]
  else c

/-- Lines 334-359: the full review-client command.  With `rbt` at version
`RBTools 0.6` or newer the range is passed as the two trailing positional
revisions (and `--depends-on` is added for `RBTools 0.6.1` or newer when a
parent id is carried); otherwise a single
`--revision-range=<previous>:<sha>` argument is used. -/
def buildCommand (cfg : Config) (review_request_id parent_review_request_id : Option (List Char))
    (previous sha : List Char) : List (List Char) :=
  let c := commandCommon cfg review_request_id
  if usesRevisionPair cfg then
    let c := if rbt_version_ge cfg rbtools061 && pyTruthy parent_review_request_id
             then c ++ [("--depends-on=").data ++ parent_review_request_id.getD []]
             else c
    c ++ cfg.argv_tail ++ [previous, sha]
  else
    c ++ [("--revision-range=").data ++ previous ++ (":").data ++ sha] ++ cfg.argv_tail

/-! ### post-reviews.py: review URL extraction from client output -/

/-- Lines 372-377: the output line holding the review URL — the
second-to-last line for `rbt` (note the literal `'rbt' in post_review`
membership test), the last line for `post-review`.  Python's negative
indexing makes `lines[len(lines) - 2]` the last line when there is exactly
one line; `List.getD` with truncated subtraction agrees there. -/
def urlLineOf (cfg : Config) (output : List Char) : List Char :=
  let lines := splitOnNl output
  if (post_review cfg).contains (("rbt").data) then lines.getD (lines.length - 2) []
  else lines.getD (lines.length - 1) []

/-- Python `url.replace('diff/', '')` at line 383: every occurrence of the
substring `diff/` is removed, scanning left to right without rescanning the
replacement. -/
def removeDiffSlash : List Char → List Char
  | [] => []
  | 'd' :: 'i' :: 'f' :: 'f' :: '/' :: rest => removeDiffSlash rest
  | c :: rest => c :: removeDiffSlash rest

/-- Lines 383-384: `url.replace('diff/','')` followed by `url.strip('/')`
(which strips slashes from both ends). -/
def normalizeReviewUrl (url : List Char) : List Char :=
  stripSlashes (removeDiffSlash url)

/-- Does `s` end with `pat`? -/
def endsWithL (pat s : List Char) : Bool := startsWithL pat.reverse s.reverse

/-- The normalization step as the specification describes it: strip one
trailing `diff/` segment and any trailing slashes, leaving the rest of the
URL unchanged.  (Second definition, written from the spec's words, for the
refinement comparison of claim C3.) -/
def normalizeReviewUrlSpec (url : List Char) : List Char :=
  trimRightBy isSlashC
    (if endsWithL (("diff/").data) url then url.take (url.length - 5) else url)

/-! ### post-reviews.py: chain discovery (lines 234-263) -/

/-- A commit of the submitted range: content hash and subject line. -/
structure CommitInfo where
  sha : List Char
  subject : List Char
deriving DecidableEq

/-- Model of the output of
`git --no-pager log --no-color --pretty=oneline --reverse <merge_base>..HEAD`
(lines 247-253): one `<sha> <subject>` line per commit of the range — the
commits strictly after the merge base, up to and including the branch tip —
oldest first (git lists newest first; `--reverse` reverses that), each
entry terminated by a newline. -/
def onelineLog (range : List CommitInfo) : List Char :=
  joinNl (range.map (fun c => c.sha ++ ' ' :: c.subject)) ++ ['\n']

/-- Python `line.split()[0]`: the first maximal run of non-whitespace
characters.  (On an all-whitespace line the Python expression raises
`IndexError`; this total model returns `[]` there, a case excluded by the
theorems' hypotheses.) -/
def firstTok (line : List Char) : List Char :=
  (line.dropWhile isPySpace).takeWhile (fun c => !isPySpace c)

/-- Lines 247-263: strip the log output, abort when it is empty (`none`
models the `sys.exit(1)` at line 257), otherwise split it into lines and
keep the first whitespace-delimited token of each line. -/
def discoverShas (raw : List Char) : Option (List (List Char)) :=
  let log := pyStrip raw
  if log.length = 0 then none
  else some ((splitOnNl log).map firstTok)

/-! ### post-reviews.py: one iteration of the main loop (lines 268-418) -/

/-- The loop-carried state of the main loop. -/
structure LoopState where
  /-- the boundary revision of the previous chain position (line 266) -/
  previous : List Char
  /-- the review id carried forward as `--depends-on` (line 267) -/
  parent_review_request_id : Option (List Char)
  /-- the commit hashes of the chain (rewritten in place at line 409) -/
  shas : List (List Char)
deriving DecidableEq

/-- The per-iteration inputs supplied by the environment (git, the review
client, the user prompt). -/
structure StepEnv where
  /-- `git log --pretty=format:%s%n%n%b previous..sha` (lines 273-277) -/
  message : List Char
  /-- the result of `user_skipped_review()` (line 328) -/
  skip : Bool
  /-- standard output of the review-client invocation (line 361) -/
  clientOutput : List Char
  /-- hash of the commit produced by `git commit --amend` (lines 390-396) -/
  amendedSha : List Char
  /-- hashes produced by rebasing each remaining commit onto the amended
  one, recorded into `shas[j]` for `j > i` (lines 398-410) -/
  rebasedShas : List (List Char)

/-- Result of one loop iteration: `fatal` models `sys.exit(1)`. -/
inductive StepOutcome where
  | fatal
  | next (st : LoopState)
deriving DecidableEq

/-- One iteration of the main loop (lines 268-418) at chain position `i`.
The trailer is parsed first (fatal on a malformed trailer, lines 279-294);
the user prompt comes next (the skip branch of lines 328-332 advances
`previous` to the current sha and carries the parsed review id — possibly
`None` — forward); then the client command
`buildCommand cfg review_request_id st.parent_review_request_id st.previous sha`
is executed.  An update (pre-existing id, lines 366-370) advances like a
skip; a create (lines 372-418) derives the new id from the client output,
amends the commit and rebases the remaining hashes, so `previous` becomes
the amended commit's hash and the tail of `shas` is rewritten. -/
def step (cfg : Config) (st : LoopState) (i : Nat) (env : StepEnv) : StepOutcome :=
  let sha := st.shas.getD i []
  match findReviewRequestId cfg.reviewboard_url env.message with
  | .error _ => .fatal
  | .ok review_request_id =>
    if env.skip then
      .next { st with previous := sha, parent_review_request_id := review_request_id }
    else
      match review_request_id with
      | some rid => .next { st with previous := sha, parent_review_request_id := some rid }
      | none =>
        let url := urlLineOf cfg (pyStrip env.clientOutput)
        let rid := basenameL (normalizeReviewUrl url)
        .next { previous := env.amendedSha,
                parent_review_request_id := some rid,
                shas := st.shas.take (i + 1) ++ env.rebasedShas }

/-! ### mesos-style.py -/

/-- The character class `[Licensed|Copyright]` written in the regex at line
131 of mesos-style.py.  As a regex character class it matches any single
one of these characters. -/
def licenseClassChars : List Char := ("Licensed|Copyright").data

/-- `re.match(r'^\/\/ [Licensed|Copyright]', head)` at line 131: the first
line must start with `//`, a space, and then one character of the class. -/
def licenseLineOk (head : List Char) : Bool :=
  match head with
  | '/' :: '/' :: ' ' :: c :: _ => licenseClassChars.contains c
  | _ => false

/-- `check_license_header` (lines 121-138): one error per checked file
whose first line fails the pattern, modelled over the list of first lines. -/
def check_license_header (heads : List (List Char)) : Nat :=
  (heads.filter (fun h => !licenseLineOk h)).length

/-- The inputs of one run of mesos-style.py. -/
structure StyleInput where
  /-- absolute paths of the discovered candidate files (lines 152-157) -/
  candidates : List (List Char)
  /-- `sys.argv[1:]` -/
  argvFiles : List (List Char)
  /-- the first line of each file, read by `check_license_header` -/
  headOf : List Char → List Char
  /-- the error count reported by `cpplint` over the checked files -/
  lintErrors : Nat

/-- Lines 159-168: the checked set — the intersection of the rstripped
supplied paths (or all candidates when none are supplied) with the
candidate set.  The Python `set` is represented as a duplicate-free list;
the claims depend only on membership, emptiness and cardinality, all of
which are independent of iteration order. -/
def filteredCandidates (inp : StyleInput) : List (List Char) :=
  let file_paths := if inp.argvFiles.isEmpty then inp.candidates else inp.argvFiles
  let clean := file_paths.map (fun x => trimRightBy isPySpace x)
  (inp.candidates.filter (fun c => clean.contains c)).dedup

/-- Lines 170-181: the dispatch of `__main__`.  Returns the value passed to
`sys.exit` and whether the license check and linter were invoked.  An empty
checked set prints `No files to lint` and exits 0 without running either
check; otherwise the exit code is the license-header error count plus the
lint error count. -/
def styleMain (inp : StyleInput) : Nat × Bool :=
  let filtered := filteredCandidates inp
  if filtered.isEmpty then (0, false)
  else (check_license_header (filtered.map inp.headOf) + inp.lintErrors, true)

/-! ## Helper lemmas -/

lemma trimRightBy_last (p : Char → Bool) (d : Char) (hd : p d = false) :
    ∀ y, trimRightBy p (y ++ [d]) = y ++ [d] := by
  intro y
  induction y with
  | nil => simp [trimRightBy, hd]
  | cons c y ih =>
      simp only [List.cons_append, trimRightBy, List.append_eq]
      rw [ih]
      cases y <;> rfl

lemma trimRightBy_snoc_true (p : Char → Bool) (c : Char) (hc : p c = true) :
    ∀ u, trimRightBy p (u ++ [c]) = trimRightBy p u := by
  intro u
  induction u with
  | nil => simp [trimRightBy, hc]
  | cons a u ih =>
      simp only [List.cons_append, trimRightBy, List.append_eq]
      rw [ih]

lemma dropWhile_append_ex (p : Char → Bool) (t : List Char) (ht : t.dropWhile p = t) :
    ∀ pre, ∃ l, (pre ++ t).dropWhile p = l ++ t := by
  intro pre
  induction pre with
  | nil => exact ⟨[], by simpa using ht⟩
  | cons c pre ih =>
      by_cases hc : p c = true
      · obtain ⟨l, hl⟩ := ih
        exact ⟨l, by simp [List.dropWhile_cons, hc, hl]⟩
      · exact ⟨c :: pre, by simp [List.dropWhile_cons, hc]⟩

lemma containsSub_append_left (pat s : List Char) (h : containsSub pat s = true) :
    ∀ pre, containsSub pat (pre ++ s) = true := by
  intro pre
  induction pre with
  | nil => simpa using h
  | cons c pre ih => simp [containsSub, ih]

lemma startsWithL_self_append (u : List Char) :
    ∀ r, startsWithL u (u ++ r) = true := by
  induction u with
  | nil => intro r; rfl
  | cons x u ih => intro r; simp [startsWithL, ih]

lemma containsSub_self_append (pat rest : List Char) :
    containsSub pat (pat ++ rest) = true := by
  cases pat with
  | nil =>
      cases rest with
      | nil => rfl
      | cons c l => simp [containsSub, startsWithL]
  | cons a q =>
      simp only [List.cons_append, containsSub, Bool.or_eq_true]
      exact Or.inl (by simpa using startsWithL_self_append (a :: q) rest)

lemma drop_append_sub (t : List Char) :
    ∀ (x : List Char) (n : Nat), (x ++ t).drop n = x.drop n ++ t.drop (n - x.length) := by
  intro x
  induction x with
  | nil => intro n; simp
  | cons a x ih =>
      intro n
      cases n with
      | zero => simp
      | succ n => simpa [Nat.succ_sub_succ] using ih n

lemma matchTrailerHere_of_ne (x : List Char) (hx : x ≠ []) :
    matchTrailerHere apacheBase (x ++ trailer123) = none := by
  have hx1 : 1 ≤ x.length := by
    cases x with
    | nil => exact absurd rfl hx
    | cons a l => simp
  have hdig : ((x ++ trailer123).drop (8 + apacheBase.length + 3)).all Char.isDigit = false := by
    have hlen : 8 + apacheBase.length + 3 = 37 := by decide
    rw [hlen, drop_append_sub, List.all_append]
    have h37 : ∀ k, k < 37 → ((trailer123).drop k).all Char.isDigit = false := by decide
    rw [h37 (37 - x.length) (by omega), Bool.and_false]
  unfold matchTrailerHere
  rw [hdig]
  simp

lemma searchTrailer_append_t123 (l : List Char) :
    searchTrailer apacheBase (l ++ trailer123) = some url123 := by
  induction l with
  | nil => decide
  | cons c l ih =>
      have h := matchTrailerHere_of_ne (c :: l) (by simp)
      simp only [List.cons_append] at h ⊢
      simp only [searchTrailer]
      rw [h]
      exact ih

lemma strip_append_t123 (pre : List Char) :
    ∃ l, stripSlashes (pyStrip (pre ++ trailer123)) = l ++ trailer123 := by
  have ht : trailer123 = (("Review: https://reviews.apache.org/r/12").data) ++ ['3'] := rfl
  obtain ⟨l1, hl1⟩ := dropWhile_append_ex isPySpace trailer123 (by decide) pre
  have h2 : trimRightBy isPySpace (l1 ++ trailer123) = l1 ++ trailer123 := by
    rw [ht, ← List.append_assoc]
    exact trimRightBy_last isPySpace '3' (by decide) _
  obtain ⟨l2, hl2⟩ := dropWhile_append_ex isSlashC trailer123 (by decide) l1
  have h4 : trimRightBy isSlashC (l2 ++ trailer123) = l2 ++ trailer123 := by
    rw [ht, ← List.append_assoc]
    exact trimRightBy_last isSlashC '3' (by decide) _
  refine ⟨l2, ?_⟩
  unfold stripSlashes pyStrip stripBy
  rw [hl1, h2, hl2, h4]

/-- C1: a commit message carrying the trailer
`Review: https://reviews.apache.org/r/123` (as its final line, against the
configured server URL `https://reviews.apache.org`) yields exactly the
request id `123`, and re-deriving the trailer line from that id and the
base URL reproduces the same URL, so re-submission round-trips. -/
theorem c1_review_trailer_round_trip (pre : List Char) :
    findReviewRequestId apacheBase (pre ++ trailer123) = .ok (some (("123").data)) ∧
    urlOfId apacheBase (("123").data) = url123 ∧
    ("Review: ").data ++ urlOfId apacheBase (("123").data) = trailer123 := by
  refine ⟨?_, by decide, by decide⟩
  have hc : containsSub (("Review:").data) (pre ++ trailer123) = true := by
    apply containsSub_append_left
    exact containsSub_self_append (("Review:").data) ((" https://reviews.apache.org/r/123").data)
  obtain ⟨l, hl⟩ := strip_append_t123 pre
  have hb : stripSlashes apacheBase = apacheBase := by decide
  unfold findReviewRequestId
  rw [hc, if_pos rfl, hb, hl, searchTrailer_append_t123]
  rfl

/-- C1 witness: the theorem instantiated at a concrete commit message. -/
theorem c1_witness :
    findReviewRequestId apacheBase
        (("Fix the widget\n\nReview: https://reviews.apache.org/r/123").data) =
      .ok (some (("123").data)) ∧
    ("Review: ").data ++ urlOfId apacheBase (("123").data) = trailer123 := by
  have h := c1_review_trailer_round_trip (("Fix the widget\n\n").data)
  exact ⟨h.1, h.2.2⟩

/-- C2: when a commit message contains the token `Review:` but does not
match the pattern `Review: <base_url>/r/<digits>` anchored at the end of
the (stripped) message, the submitter reports the invalid trailer
(`.error` carries `message[pos:]`, the text printed in the
`Invalid ReviewBoard URL` diagnostic) and the loop iteration is fatal —
`sys.exit(1)` — for every state, chain position and environment, so the
commit is never silently skipped or submitted. -/
theorem c2_malformed_trailer_fatal (base m : List Char)
    (hfind : containsSub (("Review:").data) m = true)
    (hmatch : searchTrailer (stripSlashes base) (stripSlashes (pyStrip m)) = none) :
    findReviewRequestId base m = .error (dropToSub (("Review:").data) m) ∧
    ∀ (cfg : Config) (st : LoopState) (i : Nat) (env : StepEnv),
      cfg.reviewboard_url = base → env.message = m → step cfg st i env = .fatal := by
  have herr : findReviewRequestId base m = .error (dropToSub (("Review:").data) m) := by
    unfold findReviewRequestId
    rw [hfind, if_pos rfl, hmatch]
  refine ⟨herr, ?_⟩
  intro cfg st i env hcfg hm
  unfold step
  rw [hcfg, hm, herr]

/-- C2 witness: the message `Review: not-a-url` aborts. -/
theorem c2_witness :
    findReviewRequestId apacheBase (("Review: not-a-url").data) =
      .error (("Review: not-a-url").data) ∧
    step { reviewboard_url := apacheBase, tracking_branch := ("master").data,
           tracking_branch_arg := false, client := .postReview,
           rbt_executable := ("rbt").data, argv_tail := [] }
        { previous := ("master").data, parent_review_request_id := none,
          shas := [("abc1").data] } 0
        { message := ("Review: not-a-url").data, skip := false,
          clientOutput := [], amendedSha := [], rebasedShas := [] } = .fatal := by
  have h := c2_malformed_trailer_fatal apacheBase (("Review: not-a-url").data)
      (by decide) (by decide)
  exact ⟨h.1, h.2 _ _ _ _ rfl rfl⟩

/-- C9: trailer detection is triggered by the substring `Review:` anywhere
in the commit message; when no well-formed trailer matches at the end of
the message, the iteration is fatal (exit 1) for every environment — in
particular for both values of the prompt answer `env.skip`, i.e. before
any prompt for that commit. -/
theorem c9_substring_detection_fatal (pre post : List Char) (cfg : Config)
    (hmatch : searchTrailer (stripSlashes cfg.reviewboard_url)
        (stripSlashes (pyStrip (pre ++ ("Review:").data ++ post))) = none) :
    ∀ (st : LoopState) (i : Nat) (env : StepEnv),
      env.message = pre ++ ("Review:").data ++ post →
      step cfg st i env = .fatal := by
  intro st i env hm
  have hfind : containsSub (("Review:").data) (pre ++ ("Review:").data ++ post) = true := by
    rw [List.append_assoc]
    exact containsSub_append_left _ _ (containsSub_self_append _ _) pre
  have herr : findReviewRequestId cfg.reviewboard_url (pre ++ ("Review:").data ++ post) =
      .error (dropToSub (("Review:").data) (pre ++ ("Review:").data ++ post)) := by
    unfold findReviewRequestId
    rw [hfind, if_pos rfl, hmatch]
  unfold step
  rw [hm, herr]

/-- C9 witness: a message that merely mentions `Review:` in its body (here
with the prompt answer set to skip) is fatal before the prompt matters. -/
theorem c9_witness :
    step { reviewboard_url := apacheBase, tracking_branch := ("master").data,
           tracking_branch_arg := false, client := .postReview,
           rbt_executable := ("rbt").data, argv_tail := [] }
        { previous := ("master").data, parent_review_request_id := none,
          shas := [("abc1").data] } 0
        { message := ("Fix parser\n\nSee Review: thread for details").data, skip := true,
          clientOutput := [], amendedSha := [], rebasedShas := [] } = .fatal := by
  exact c9_substring_detection_fatal (("Fix parser\n\nSee ").data)
      ((" thread for details").data) _ (by decide) _ 0 _ rfl

lemma removeDiffSlash_cons (c : Char) (rest : List Char)
    (h : startsWithL (("diff/").data) (c :: rest) = false) :
    removeDiffSlash (c :: rest) = c :: removeDiffSlash rest := by
  rw [removeDiffSlash.eq_def]
  split
  · rename_i heq
    exact List.noConfusion heq
  · rename_i rest' heq
    injection heq with h1 h2
    subst h1
    subst h2
    simp [startsWithL] at h
  · rename_i c' rest' hne heq
    injection heq with h1 h2
    subst h1
    subst h2
    rfl

lemma startsWithL_diff_suffix (c : Char) (u : List Char)
    (h : startsWithL (("diff/").data) (c :: u) = false) :
    startsWithL (("diff/").data) ((c :: u) ++ ("diff/").data) = false := by
  rcases u with _ | ⟨b, _ | ⟨c3, _ | ⟨d4, _ | ⟨e5, rest⟩⟩⟩⟩ <;>
    simp_all [startsWithL, List.cons_append]
  exact h

lemma removeDiffSlash_id (s : List Char)
    (h : containsSub (("diff/").data) s = false) :
    removeDiffSlash s = s := by
  induction s using removeDiffSlash.induct with
  | case1 => rfl
  | case2 rest ih => simp [containsSub, startsWithL] at h
  | case3 c rest hne ih =>
      simp only [containsSub, Bool.or_eq_false_iff] at h
      simp only [removeDiffSlash]
      rw [ih h.2]

lemma removeDiffSlash_append_tail (u : List Char)
    (h : containsSub (("diff/").data) u = false) :
    removeDiffSlash (u ++ ("diff/").data) = u := by
  induction u with
  | nil => decide
  | cons c u ih =>
      simp only [containsSub, Bool.or_eq_false_iff] at h
      have hsw : startsWithL (("diff/").data) (c :: (u ++ ("diff/").data)) = false := by
        have h2 := startsWithL_diff_suffix c u h.1
        simpa [List.cons_append] using h2
      rw [List.cons_append, removeDiffSlash_cons _ _ hsw, ih h.2]

/-- C3 counterexample: the claim says normalization strips only a
*trailing* `diff/` segment and leaves the rest of the URL unchanged, but
`url.replace('diff/','')` removes a non-trailing `diff/` as well: on the
output line `https://host/diff/r/45` the code yields `https://host/r/45`,
while the normalization described by the spec leaves the URL unchanged. -/
theorem c3_counterexample :
    normalizeReviewUrl (("https://host/diff/r/45").data) = (("https://host/r/45").data) ∧
    normalizeReviewUrlSpec (("https://host/diff/r/45").data) = (("https://host/diff/r/45").data) ∧
    normalizeReviewUrl (("https://host/diff/r/45").data) ≠
      normalizeReviewUrlSpec (("https://host/diff/r/45").data) := by decide

/-- C3 (amended): normalization removes *every* occurrence of the substring
`diff/` (not only a trailing segment) and strips leading as well as
trailing slashes, then the request id is the final path segment.  When the
only `diff/` occurrence is the trailing segment, the rest of the URL is
unchanged (up to slash stripping): for every `u` with no `diff/` occurrence,
`u ++ "diff/"` normalizes to `u.strip('/')`, and `u` itself is untouched by
the replacement. -/
theorem c3_amended_normalization (u : List Char)
    (h : containsSub (("diff/").data) u = false) :
    normalizeReviewUrl (u ++ ("diff/").data) = stripSlashes u ∧
    normalizeReviewUrl u = stripSlashes u ∧
    basenameL (normalizeReviewUrl (u ++ ("diff/").data)) = basenameL (stripSlashes u) := by
  have h1 : removeDiffSlash (u ++ ("diff/").data) = u := removeDiffSlash_append_tail u h
  have h2 : removeDiffSlash u = u := removeDiffSlash_id u h
  exact ⟨by simp [normalizeReviewUrl, h1], by simp [normalizeReviewUrl, h2],
    by simp [normalizeReviewUrl, h1]⟩

/-- C3 witness: the concrete example of the claim — an output URL ending in
`.../r/45/diff/` yields request id `45`. -/
theorem c3_witness :
    normalizeReviewUrl (("https://reviews.apache.org/r/45/diff/").data) =
      (("https://reviews.apache.org/r/45").data) ∧
    basenameL (normalizeReviewUrl (("https://reviews.apache.org/r/45/diff/").data)) =
      (("45").data) := by
  have h := c3_amended_normalization (("https://reviews.apache.org/r/45/").data) (by decide)
  have he : (("https://reviews.apache.org/r/45/diff/").data) =
      (("https://reviews.apache.org/r/45/").data) ++ (("diff/").data) := rfl
  rw [he]
  exact ⟨by rw [h.1]; decide, by rw [h.2.2]; decide⟩

/-- C4: evaluation of the license-header check.  The claim's first two
parts hold: a first line `// Licensed ...` passes, and a first line
`Copyright ...` without the `//` prefix fails and adds exactly one error.
Its third part is contradicted by the code: the regex
`^\/\/ [Licensed|Copyright]` uses a character *class*, so a first line
whose character after `// ` is any one of `L,i,c,e,n,s,d,|,C,o,p,y,r,g,h,t`
passes even though it starts with neither `Licensed` nor `Copyright` —
`// no license text here` passes and adds zero errors. -/
theorem c4_license_header_eval :
    licenseLineOk (("// Licensed to the Apache Software Foundation (ASF)").data) = true ∧
    licenseLineOk (("Copyright 2015 Example Corp.").data) = false ∧
    check_license_header [(("Copyright 2015 Example Corp.").data)] = 1 ∧
    licenseLineOk (("// no license text here").data) = true ∧
    check_license_header [(("// no license text here").data)] = 0 := by decide

/-- C6: when the user skips the prompt at a chain position whose commit
already carries a review id parsed from its trailer, the iteration advances
with that id carried forward unchanged as the depends-on parent
(`parent_review_request_id`) and with the skipped commit's sha as the new
`previous` boundary; and whenever a carried parent id is present for an
`rbt` client at version `RBTools 0.6.1` or newer, the next commit's client
command contains `--depends-on=<id>`. -/
theorem c6_skip_propagates (cfg : Config) (st : LoopState) (i : Nat) (env : StepEnv)
    (rid : List Char)
    (hmsg : findReviewRequestId cfg.reviewboard_url env.message = .ok (some rid))
    (hskip : env.skip = true) :
    step cfg st i env =
      .next { st with previous := st.shas.getD i [],
                      parent_review_request_id := some rid } ∧
    (usesRevisionPair cfg = true → rbt_version_ge cfg rbtools061 = true →
      rid.isEmpty = false →
      ∀ (rrid : Option (List Char)) (prev sha : List Char),
        (("--depends-on=").data ++ rid) ∈ buildCommand cfg rrid (some rid) prev sha) := by
  constructor
  · unfold step
    rw [hmsg, hskip]
    rfl
  · intro h1 h2 h3 rrid prev sha
    have hdep : (rbt_version_ge cfg rbtools061 && pyTruthy (some rid)) = true := by
      simp [pyTruthy, h2, h3]
    unfold buildCommand
    rw [h1]
    simp only [if_pos rfl, hdep, if_true]
    simp [List.mem_append]

/-- C6 witness: a skipped commit with trailer id 123 propagates 123. -/
theorem c6_witness :
    step { reviewboard_url := apacheBase, tracking_branch := ("master").data,
           tracking_branch_arg := false,
           client := .rbt (tokenizeVer (("RBTools 0.7.10\n").data)),
           rbt_executable := ("rbt").data, argv_tail := [] }
        { previous := ("master").data, parent_review_request_id := none,
          shas := [("abc1").data, ("def2").data] } 0
        { message := ("Fix the widget\n\nReview: https://reviews.apache.org/r/123").data,
          skip := true, clientOutput := [], amendedSha := [], rebasedShas := [] } =
      .next { previous := ("abc1").data,
              parent_review_request_id := some (("123").data),
              shas := [("abc1").data, ("def2").data] } ∧
    (("--depends-on=123").data) ∈
      buildCommand { reviewboard_url := apacheBase, tracking_branch := ("master").data,
                     tracking_branch_arg := false,
                     client := .rbt (tokenizeVer (("RBTools 0.7.10\n").data)),
                     rbt_executable := ("rbt").data, argv_tail := [] }
        none (some (("123").data)) (("abc1").data) (("def2").data) := by
  have h := c6_skip_propagates
      { reviewboard_url := apacheBase, tracking_branch := ("master").data,
        tracking_branch_arg := false,
        client := .rbt (tokenizeVer (("RBTools 0.7.10\n").data)),
        rbt_executable := ("rbt").data, argv_tail := [] }
      { previous := ("master").data, parent_review_request_id := none,
        shas := [("abc1").data, ("def2").data] } 0
      { message := ("Fix the widget\n\nReview: https://reviews.apache.org/r/123").data,
        skip := true, clientOutput := [], amendedSha := [], rebasedShas := [] }
      (("123").data) rfl rfl
  exact ⟨h.1, h.2 (by decide) (by decide) (by decide) none (("abc1").data) (("def2").data)⟩

/-- C7: the commit range is passed to the review client as an explicit
two-revision trailing argument pair exactly when the `rbt` client was
selected and its reported version is at or above `RBTools 0.6`; otherwise
(`post-review`, or `rbt` below the threshold) a single
`--revision-range=<previous>:<sha>` argument is used. -/
theorem c7_revision_range_selection (cfg : Config) (rid pid : Option (List Char))
    (prev sha : List Char) :
    (usesRevisionPair cfg = true ↔
      ∃ v, cfg.client = ReviewClient.rbt v ∧ looseGe v rbtools06 = true) ∧
    (usesRevisionPair cfg = true →
      buildCommand cfg rid pid prev sha =
        (if rbt_version_ge cfg rbtools061 && pyTruthy pid
         then commandCommon cfg rid ++ [("--depends-on=").data ++ pid.getD []]
         else commandCommon cfg rid) ++ cfg.argv_tail ++ [prev, sha]) ∧
    (usesRevisionPair cfg = false →
      buildCommand cfg rid pid prev sha =
        commandCommon cfg rid ++
          [("--revision-range=").data ++ prev ++ (":").data ++ sha] ++ cfg.argv_tail) := by
  refine ⟨?_, ?_, ?_⟩
  · constructor
    · intro h
      unfold usesRevisionPair rbt_version_ge at h
      cases hc : cfg.client with
      | rbt v =>
          rw [hc] at h
          exact ⟨v, rfl, by simpa using (Bool.and_eq_true _ _ |>.mp h).2⟩
      | postReview =>
          rw [hc] at h
          simp at h
    · rintro ⟨v, hv, hge⟩
      unfold usesRevisionPair rbt_version_ge post_review
      rw [hv]
      simp [hge, List.contains]
  · intro h
    unfold buildCommand
    rw [h]
    simp
  · intro h
    unfold buildCommand
    rw [h]
    simp

/-- C7 witness: with `rbt` at version `RBTools 0.7.10` the range is the
trailing revision pair; with `post-review` it is a `--revision-range`
argument. -/
theorem c7_witness :
    usesRevisionPair { reviewboard_url := apacheBase, tracking_branch := ("master").data,
                       tracking_branch_arg := false,
                       client := .rbt (tokenizeVer (("RBTools 0.7.10\n").data)),
                       rbt_executable := ("rbt").data, argv_tail := [] } = true ∧
    buildCommand { reviewboard_url := apacheBase, tracking_branch := ("master").data,
                   tracking_branch_arg := false,
                   client := .rbt (tokenizeVer (("RBTools 0.7.10\n").data)),
                   rbt_executable := ("rbt").data, argv_tail := [] }
        none none (("master").data) (("abc1").data) =
      [("rbt").data, ("post").data, ("--tracking-branch=master").data,
       ("master").data, ("abc1").data] ∧
    buildCommand { reviewboard_url := apacheBase, tracking_branch := ("master").data,
                   tracking_branch_arg := false, client := .postReview,
                   rbt_executable := ("rbt").data, argv_tail := [] }
        none none (("master").data) (("abc1").data) =
      [("post-review").data, ("--tracking-branch=master").data,
       ("--revision-range=master:abc1").data] := by
  refine ⟨by decide, ?_, ?_⟩
  · have h := c7_revision_range_selection
      { reviewboard_url := apacheBase, tracking_branch := ("master").data,
        tracking_branch_arg := false,
        client := .rbt (tokenizeVer (("RBTools 0.7.10\n").data)),
        rbt_executable := ("rbt").data, argv_tail := [] }
      none none (("master").data) (("abc1").data)
    rw [h.2.1 (by decide)]
    decide
  · have h := c7_revision_range_selection
      { reviewboard_url := apacheBase, tracking_branch := ("master").data,
        tracking_branch_arg := false, client := .postReview,
        rbt_executable := ("rbt").data, argv_tail := [] }
      none none (("master").data) (("abc1").data)
    rw [h.2.2 (by decide)]
    decide

/-- C8: when the filtered candidate set of the style checker is empty the
process exits 0 and invokes neither the license-header check nor the linter
(second component `false`); otherwise the exit code is the license-header
error count over the checked files plus the lint error count. -/
theorem c8_style_exit (inp : StyleInput) :
    (filteredCandidates inp = [] → styleMain inp = (0, false)) ∧
    (filteredCandidates inp ≠ [] →
      styleMain inp =
        (check_license_header ((filteredCandidates inp).map inp.headOf) + inp.lintErrors,
         true)) := by
  constructor
  · intro h
    simp [styleMain, h]
  · intro h
    simp [styleMain, List.isEmpty_iff, h]

/-- C8 witness: a run with no matching files is a clean no-op; a run with
two checked files (one bad license header) and five lint errors exits 6. -/
theorem c8_witness :
    styleMain { candidates := [("/abs/src/a.cpp").data],
                argvFiles := [("src/other.cpp").data],
                headOf := fun _ => ("// Licensed").data, lintErrors := 7 } = (0, false) ∧
    styleMain { candidates := [("/abs/src/a.cpp").data, ("/abs/src/b.cpp").data],
                argvFiles := [],
                headOf := fun p => if p = ("/abs/src/a.cpp").data
                                   then ("// Licensed to the ASF").data
                                   else ("Copyright 2015").data,
                lintErrors := 5 } = (6, true) := by
  constructor
  · exact (c8_style_exit _).1 (by decide)
  · have h := (c8_style_exit
      { candidates := [("/abs/src/a.cpp").data, ("/abs/src/b.cpp").data],
        argvFiles := [],
        headOf := fun p => if p = ("/abs/src/a.cpp").data
                           then ("// Licensed to the ASF").data
                           else ("Copyright 2015").data,
        lintErrors := 5 }).2 (by decide)
    rw [h]
    rfl

/-- C10: supplied style-checker paths are intersected with the discovered
candidates verbatim (after `rstrip`), and candidates are absolute paths:
a supplied path whose rstripped form is not character-for-character a
candidate is silently not checked, and when no supplied path matches, the
run exits 0 without invoking any check. -/
theorem c10_verbatim_intersection (inp : StyleInput)
    (hargv : inp.argvFiles.isEmpty = false) :
    (∀ p, trimRightBy isPySpace p ∉ inp.candidates →
        trimRightBy isPySpace p ∉ filteredCandidates inp) ∧
    ((∀ p ∈ inp.argvFiles, trimRightBy isPySpace p ∉ inp.candidates) →
        styleMain inp = (0, false)) := by
  have hsub : ∀ x ∈ filteredCandidates inp, x ∈ inp.candidates := by
    intro x hx
    unfold filteredCandidates at hx
    rw [List.mem_dedup, List.mem_filter] at hx
    exact hx.1
  constructor
  · intro p hp hmem
    exact hp (hsub _ hmem)
  · intro hall
    have hempty : filteredCandidates inp = [] := by
      unfold filteredCandidates
      rw [hargv]
      simp only [Bool.false_eq_true, if_false]
      rw [List.dedup_eq_nil, List.filter_eq_nil_iff]
      intro c hc
      simp only [List.contains, List.elem_eq_mem, List.mem_map, decide_eq_true_eq]
      rintro ⟨p, hp, hpc⟩
      exact hall p hp (hpc ▸ hc)
    simp [styleMain, hempty]

/-- C10 witness: a relative path to a file whose absolute form is a
candidate is not checked, and the run is a clean no-op. -/
theorem c10_witness :
    styleMain { candidates := [("/abs/src/foo.cpp").data],
                argvFiles := [("src/foo.cpp").data],
                headOf := fun _ => [], lintErrors := 0 } = (0, false) := by
  exact (c10_verbatim_intersection
      { candidates := [("/abs/src/foo.cpp").data],
        argvFiles := [("src/foo.cpp").data],
        headOf := fun _ => [], lintErrors := 0 } (by decide)).2 (by decide)

lemma trimRightBy_cons (p : Char → Bool) (a : Char) (l : List Char) :
    trimRightBy p (a :: l) =
      match trimRightBy p l with
      | [] => if p a then [] else [a]
      | r => a :: r := rfl

lemma takeWhile_append_all (p : Char → Bool) (v : List Char) :
    ∀ u, (∀ c ∈ u, p c = true) → (u ++ v).takeWhile p = u ++ v.takeWhile p := by
  intro u
  induction u with
  | nil => intro _; simp
  | cons a u ih =>
      intro h
      have ha := h a (List.mem_cons_self _ _)
      simp only [List.cons_append, List.takeWhile_cons, ha, if_true]
      rw [ih (fun c hc => h c (List.mem_cons_of_mem _ hc))]

lemma trimRightBy_append_keep (p : Char → Bool) (v : List Char)
    (hv : trimRightBy p v ≠ []) :
    ∀ u, trimRightBy p (u ++ v) = u ++ trimRightBy p v := by
  intro u
  induction u with
  | nil => simp
  | cons a u ih =>
      simp only [List.cons_append, trimRightBy, List.append_eq]
      rw [ih]
      cases hu : u ++ trimRightBy p v with
      | nil =>
          rcases List.append_eq_nil.mp hu with ⟨_, h2⟩
          exact absurd h2 hv
      | cons b l => rfl

lemma trimRightBy_ne_nil (p : Char → Bool) :
    ∀ v, (∃ x ∈ v, p x = false) → trimRightBy p v ≠ [] := by
  intro v
  induction v with
  | nil => rintro ⟨x, hx, _⟩; exact absurd hx (List.not_mem_nil x)
  | cons a v ih =>
      rintro ⟨x, hx, hpx⟩
      rcases List.mem_cons.mp hx with rfl | hx2
      · cases hv : trimRightBy p v with
        | nil => simp [trimRightBy, hv, hpx]
        | cons b l => simp [trimRightBy, hv]
      · have := ih ⟨x, hx2, hpx⟩
        cases hv : trimRightBy p v with
        | nil => exact absurd hv this
        | cons b l => simp [trimRightBy, hv]

lemma trimRightBy_subset (p : Char → Bool) :
    ∀ v x, x ∈ trimRightBy p v → x ∈ v := by
  intro v
  induction v with
  | nil => intro x hx; simp [trimRightBy] at hx
  | cons a v ih =>
      intro x hx
      cases hv : trimRightBy p v with
      | nil =>
          rw [trimRightBy, hv] at hx
          by_cases hpa : p a = true
          · simp [hpa] at hx
          · simp only [Bool.not_eq_true] at hpa
            simp [hpa] at hx
            simp [hx]
      | cons b l =>
          rw [trimRightBy, hv] at hx
          rcases List.mem_cons.mp hx with rfl | hx2
          · exact List.mem_cons_self _ _
          · exact List.mem_cons_of_mem _ (ih x (hv ▸ hx2))

lemma trimRightBy_append_nonws (p : Char → Bool) (v : List Char) :
    ∀ u, u ≠ [] → (∀ c ∈ u, p c = false) → trimRightBy p (u ++ v) = u ++ trimRightBy p v := by
  intro u
  induction u with
  | nil => intro h; exact absurd rfl h
  | cons a u ih =>
      intro _ hall
      have ha := hall a (List.mem_cons_self _ _)
      cases u with
      | nil =>
          simp only [List.nil_append, List.cons_append]
          cases hv : trimRightBy p v with
          | nil => simp [trimRightBy, hv, ha]
          | cons b l => simp [trimRightBy, hv]
      | cons b u' =>
          have hrec := ih (by simp) (fun c hc => hall c (List.mem_cons_of_mem _ hc))
          rw [List.cons_append, trimRightBy_cons, hrec]
          rfl

lemma splitOnNl_no_nl : ∀ a : List Char, '\n' ∉ a → splitOnNl a = [a] := by
  intro a
  induction a with
  | nil => intro _; rfl
  | cons c a ih =>
      intro h
      have hc : ¬(c == '\n') = true := by
        simp only [beq_iff_eq]
        intro hcc
        exact h (hcc ▸ List.mem_cons_self _ _)
      have ha : '\n' ∉ a := fun hm => h (List.mem_cons_of_mem _ hm)
      simp only [splitOnNl, Bool.not_eq_true] at hc ⊢
      rw [hc, ih ha]
      rfl

lemma splitOnNl_append (t : List Char) :
    ∀ a : List Char, '\n' ∉ a → splitOnNl (a ++ '\n' :: t) = a :: splitOnNl t := by
  intro a
  induction a with
  | nil => simp [splitOnNl]
  | cons c a ih =>
      intro h
      have hc : ¬(c == '\n') = true := by
        simp only [beq_iff_eq]
        intro hcc
        exact h (hcc ▸ List.mem_cons_self _ _)
      have ha : '\n' ∉ a := fun hm => h (List.mem_cons_of_mem _ hm)
      simp only [List.cons_append, splitOnNl, List.append_eq, Bool.not_eq_true] at hc ⊢
      rw [hc, ih ha]
      rfl

lemma firstTok_of (sha rest : List Char) (hne : sha ≠ [])
    (hsha : ∀ c ∈ sha, isPySpace c = false)
    (hrest : rest.takeWhile (fun c => !isPySpace c) = []) :
    firstTok (sha ++ rest) = sha := by
  cases sha with
  | nil => exact absurd rfl hne
  | cons s0 sha' =>
      have h0 := hsha s0 (List.mem_cons_self _ _)
      unfold firstTok
      rw [List.cons_append, List.dropWhile_cons, h0]
      simp only [Bool.false_eq_true, if_false]
      rw [← List.cons_append]
      rw [takeWhile_append_all _ _ _ (by intro c hc; simp [hsha c hc]), hrest,
        List.append_nil]

lemma trimRightBy_head (p : Char → Bool) (a : Char) (l : List Char) :
    trimRightBy p (a :: l) = [] ∨ ∃ r, trimRightBy p (a :: l) = a :: r := by
  cases hv : trimRightBy p l with
  | nil =>
      by_cases hpa : p a = true
      · exact Or.inl (by simp [trimRightBy, hv, hpa])
      · simp only [Bool.not_eq_true] at hpa
        exact Or.inr ⟨[], by simp [trimRightBy, hv, hpa]⟩
  | cons b r => exact Or.inr ⟨b :: r, by simp [trimRightBy, hv]⟩

lemma joinNl_cons_ex (l : List Char) (ls : List (List Char)) :
    ∃ X, joinNl (l :: ls) = l ++ X := by
  cases ls with
  | nil => exact ⟨[], by simp [joinNl]⟩
  | cons l₂ ls₂ => exact ⟨'\n' :: joinNl (l₂ :: ls₂), rfl⟩

lemma firstTok_sha_space (sha subj : List Char) (hne : sha ≠ [])
    (hsha : ∀ c ∈ sha, isPySpace c = false) :
    firstTok (sha ++ ' ' :: subj) = sha := by
  apply firstTok_of sha (' ' :: subj) hne hsha
  simp [List.takeWhile_cons, isPySpace]

lemma c5_split_map :
    ∀ range : List CommitInfo, range ≠ [] →
    (∀ c ∈ range, c.sha ≠ [] ∧ ∀ ch ∈ c.sha, isPySpace ch = false) →
    (∀ c ∈ range, '\n' ∉ c.subject) →
    (splitOnNl (trimRightBy isPySpace
        (joinNl (range.map (fun c => c.sha ++ ' ' :: c.subject))))).map firstTok =
      range.map (fun c => c.sha) := by
  intro range
  induction range with
  | nil => intro h; exact absurd rfl h
  | cons c range ih =>
      intro _ hsha hsubj
      obtain ⟨hcne, hcws⟩ := hsha c (List.mem_cons_self _ _)
      have hcsubj := hsubj c (List.mem_cons_self _ _)
      have hline_nonl : '\n' ∉ c.sha ++ ' ' :: c.subject := by
        intro hmem
        rcases List.mem_append.mp hmem with h1 | h2
        · have := hcws _ h1
          simp [isPySpace] at this
        · rcases List.mem_cons.mp h2 with h3 | h3
          · exact absurd h3 (by decide)
          · exact hcsubj h3
      cases range with
      | nil =>
          simp only [List.map_cons, List.map_nil, joinNl]
          have htrim : trimRightBy isPySpace (c.sha ++ ' ' :: c.subject) =
              c.sha ++ trimRightBy isPySpace (' ' :: c.subject) :=
            trimRightBy_append_nonws _ _ _ hcne hcws
          rw [htrim]
          have hnn : '\n' ∉ c.sha ++ trimRightBy isPySpace (' ' :: c.subject) := by
            intro hmem
            rcases List.mem_append.mp hmem with h1 | h2
            · have := hcws _ h1
              simp [isPySpace] at this
            · have h3 := trimRightBy_subset isPySpace _ _ h2
              rcases List.mem_cons.mp h3 with h4 | h4
              · exact absurd h4 (by decide)
              · exact hcsubj h4
          rw [splitOnNl_no_nl _ hnn]
          simp only [List.map_cons, List.map_nil]
          rw [firstTok_of c.sha _ hcne hcws ?_]
          rcases trimRightBy_head isPySpace ' ' c.subject with h | ⟨r, h⟩
          · rw [h]
            rfl
          · rw [h]
            simp [List.takeWhile_cons, isPySpace]
      | cons c₂ range₂ =>
          have hjoin : joinNl ((c :: c₂ :: range₂).map (fun x => x.sha ++ ' ' :: x.subject)) =
              (c.sha ++ ' ' :: c.subject) ++ '\n' ::
                joinNl ((c₂ :: range₂).map (fun x => x.sha ++ ' ' :: x.subject)) := rfl
          rw [hjoin]
          obtain ⟨h2ne, h2ws⟩ := hsha c₂ (List.mem_cons_of_mem _ (List.mem_cons_self _ _))
          obtain ⟨s0, sha', hs0⟩ := List.exists_cons_of_ne_nil h2ne
          obtain ⟨X, hX⟩ := joinNl_cons_ex (c₂.sha ++ ' ' :: c₂.subject)
            (range₂.map (fun x => x.sha ++ ' ' :: x.subject))
          have hs0mem : s0 ∈ joinNl ((c₂ :: range₂).map (fun x => x.sha ++ ' ' :: x.subject)) := by
            simp only [List.map_cons]
            rw [hX, hs0]
            simp
          have hs0ws : isPySpace s0 = false := h2ws s0 (by rw [hs0]; exact List.mem_cons_self _ _)
          have hTne : trimRightBy isPySpace
              (joinNl ((c₂ :: range₂).map (fun x => x.sha ++ ' ' :: x.subject))) ≠ [] :=
            trimRightBy_ne_nil _ _ ⟨s0, hs0mem, hs0ws⟩
          rw [List.append_cons _ '\n', trimRightBy_append_keep _ _ hTne,
            ← List.append_cons _ '\n']
          rw [splitOnNl_append _ _ hline_nonl]
          simp only [List.map_cons]
          rw [firstTok_sha_space c.sha c.subject hcne hcws]
          have hihr := ih (by simp) (fun x hx => hsha x (List.mem_cons_of_mem _ hx))
            (fun x hx => hsubj x (List.mem_cons_of_mem _ hx))
          simp only [List.map_cons] at hihr
          rw [hihr]

/-- C5: for every non-empty commit range (the commits strictly after the
merge base of the tracking branch, up to and including the branch tip,
oldest first as emitted by `git log --reverse`), chain discovery returns
exactly the list of their hashes in oldest-to-newest order — the merge-base
commit itself is excluded and the tip included by construction of the
`<merge_base>..HEAD` log. -/
theorem c5_chain_discovery (range : List CommitInfo) (hne : range ≠ [])
    (hsha : ∀ c ∈ range, c.sha ≠ [] ∧ ∀ ch ∈ c.sha, isPySpace ch = false)
    (hsubj : ∀ c ∈ range, '\n' ∉ c.subject) :
    discoverShas (onelineLog range) = some (range.map (fun c => c.sha)) := by
  obtain ⟨c0, range', hr⟩ := List.exists_cons_of_ne_nil hne
  subst hr
  obtain ⟨h0ne, h0ws⟩ := hsha c0 (List.mem_cons_self _ _)
  obtain ⟨s0, sha', hs0⟩ := List.exists_cons_of_ne_nil h0ne
  obtain ⟨X, hX⟩ := joinNl_cons_ex (c0.sha ++ ' ' :: c0.subject)
    (range'.map (fun x => x.sha ++ ' ' :: x.subject))
  have hs0ws : isPySpace s0 = false := h0ws s0 (by rw [hs0]; exact List.mem_cons_self _ _)
  have hs0mem : s0 ∈ joinNl ((c0 :: range').map (fun x => x.sha ++ ' ' :: x.subject)) := by
    simp only [List.map_cons]
    rw [hX, hs0]
    simp
  have hdw : (joinNl ((c0 :: range').map (fun x => x.sha ++ ' ' :: x.subject)) ++
      ['\n']).dropWhile isPySpace =
      joinNl ((c0 :: range').map (fun x => x.sha ++ ' ' :: x.subject)) ++ ['\n'] := by
    simp only [List.map_cons]
    rw [hX, hs0]
    simp only [List.cons_append, List.append_assoc]
    rw [List.dropWhile_cons, hs0ws]
    simp
  have htr : trimRightBy isPySpace
      (joinNl ((c0 :: range').map (fun x => x.sha ++ ' ' :: x.subject)) ++ ['\n']) =
      trimRightBy isPySpace
        (joinNl ((c0 :: range').map (fun x => x.sha ++ ' ' :: x.subject))) :=
    trimRightBy_snoc_true isPySpace '\n' (by decide) _
  have hlogne : trimRightBy isPySpace
      (joinNl ((c0 :: range').map (fun x => x.sha ++ ' ' :: x.subject))) ≠ [] :=
    trimRightBy_ne_nil _ _ ⟨s0, hs0mem, hs0ws⟩
  unfold discoverShas onelineLog pyStrip stripBy
  rw [hdw, htr]
  rw [if_neg (by simpa [List.length_eq_zero] using hlogne)]
  rw [c5_split_map (c0 :: range') (by simp) hsha hsubj]

/-- C5 witness: a two-commit range yields the two hashes oldest first. -/
theorem c5_witness :
    discoverShas (onelineLog
      [{ sha := ("a1b2c3").data, subject := ("First change").data },
       { sha := ("d4e5f6").data, subject := ("Second change").data }]) =
      some [("a1b2c3").data, ("d4e5f6").data] := by
  exact c5_chain_discovery
    [{ sha := ("a1b2c3").data, subject := ("First change").data },
     { sha := ("d4e5f6").data, subject := ("Second change").data }]
    (by simp) (by decide) (by decide)

end MesosSupport
